import Mathlib

/-!
Verification development for the `web-summarizer` repository.

The repository contains two variants of the same small Flask service
(`src/web_api.py` and `src/web-summarize.py`).  This file gives a shallow
embedding of the request pipeline of both variants — URL validation,
HTML-to-text extraction, word-count truncation, the outbound summarization
call with its retry configuration and error mapping — and proves (or
refutes) the specification claims about them.

Modelling conventions:
* Python strings are modelled as `List Char`; the character-class tests
  (`\w`, `str.isspace`) are modelled on their ASCII fragment, which is all
  the concrete inputs appearing below use.
* HTML documents are modelled as forests of already-parsed nodes
  (`BeautifulSoup` with the tolerant `html.parser` backend never fails to
  produce a tree, so parsing itself is not modelled).
* Network effects are modelled by passing the outcome of each outbound
  call (a response, or the kind of exception raised) as explicit data.
-/

/-- ASCII fragment of Python's whitespace test used by `str.split()`,
`str.strip()` and the regex class `\s`. -/
def isWs (c : Char) : Bool :=
  c == ' ' || c == '\t' || c == '\n' || c == '\r'

/-- `s.split()` in Python: split on runs of whitespace, dropping empty
pieces (from `content.split()` in `src/web_api.py` line 112 and
`src/web-summarize.py` line 90). -/
def splitWords : List Char → List (List Char)
  | [] => []
  | c :: cs =>
    if isWs c then splitWords cs
    else (c :: cs.takeWhile (fun d => !isWs d)) ::
      splitWords (cs.dropWhile (fun d => !isWs d))
termination_by s => s.length
decreasing_by
  · simp
  · simp
    exact Nat.lt_succ_of_le (List.dropWhile_sublist _).length_le

/-- `" ".join(ws)` in Python. -/
def joinSpace : List (List Char) → List Char
  | [] => []
  | [w] => w
  | w :: ws => w ++ ' ' :: joinSpace ws

/-- The word-count truncation performed by both handlers
(`src/web_api.py` lines 112–114 with cap 300, `src/web-summarize.py`
lines 90–92 with cap 10000): if the text has more than `n` whitespace
words, keep the first `n` and rejoin with single spaces, else return the
text unchanged. -/
def truncate (s : List Char) (n : Nat) : List Char :=
  if (splitWords s).length > n then joinSpace ((splitWords s).take n) else s

theorem splitWords_nil : splitWords [] = [] := by
  simp [splitWords]

theorem splitWords_cons_ws {c : Char} (cs : List Char) (h : isWs c = true) :
    splitWords (c :: cs) = splitWords cs := by
  rw [splitWords]
  simp [h]

theorem splitWords_cons_nws {c : Char} (cs : List Char) (h : isWs c = false) :
    splitWords (c :: cs) =
      (c :: cs.takeWhile (fun d => !isWs d)) ::
        splitWords (cs.dropWhile (fun d => !isWs d)) := by
  rw [splitWords]
  simp [h]

/-- Every word produced by `splitWords` is nonempty. -/
theorem splitWords_ne_nil (s : List Char) :
    ∀ w ∈ splitWords s, w ≠ [] := by
  induction s using splitWords.induct with
  | case1 => simp [splitWords_nil]
  | case2 c cs hws ih =>
    rw [splitWords_cons_ws cs hws]
    exact ih
  | case3 c cs hws ih =>
    rw [splitWords_cons_nws cs (by simpa using hws)]
    intro w hw
    rw [List.mem_cons] at hw
    rcases hw with hw | hw
    · simp [hw]
    · exact ih w hw

/-- Every character of every word produced by `splitWords` is
non-whitespace. -/
theorem splitWords_no_ws (s : List Char) :
    ∀ w ∈ splitWords s, ∀ c ∈ w, isWs c = false := by
  induction s using splitWords.induct with
  | case1 => simp [splitWords_nil]
  | case2 c cs hws ih =>
    rw [splitWords_cons_ws cs hws]
    exact ih
  | case3 c cs hws ih =>
    rw [splitWords_cons_nws cs (by simpa using hws)]
    intro w hw
    rw [List.mem_cons] at hw
    rcases hw with hw | hw
    · intro d hd
      subst hw
      rw [List.mem_cons] at hd
      rcases hd with hd | hd
      · simpa [hd] using hws
      · have h2 := List.mem_takeWhile_imp hd
        simpa using h2
    · exact ih w hw

theorem takeWhile_append_all {α : Type} (p : α → Bool) (l1 l2 : List α)
    (h : ∀ a ∈ l1, p a = true) :
    (l1 ++ l2).takeWhile p = l1 ++ l2.takeWhile p := by
  induction l1 with
  | nil => simp
  | cons a l1 ih =>
    have ha : p a = true := h a (by simp)
    simp only [List.cons_append, List.takeWhile_cons, ha, if_true]
    rw [ih (fun b hb => h b (by simp [hb]))]

theorem dropWhile_append_all {α : Type} (p : α → Bool) (l1 l2 : List α)
    (h : ∀ a ∈ l1, p a = true) :
    (l1 ++ l2).dropWhile p = l2.dropWhile p := by
  induction l1 with
  | nil => simp
  | cons a l1 ih =>
    have ha : p a = true := h a (by simp)
    simp only [List.cons_append, List.dropWhile_cons, ha, if_true]
    exact ih (fun b hb => h b (by simp [hb]))

/-- A "clean" word: nonempty and free of whitespace.  `splitWords`
produces exactly the clean words (see `splitWords_ne_nil`,
`splitWords_no_ws`). -/
def CleanWord (w : List Char) : Prop :=
  w ≠ [] ∧ ∀ c ∈ w, isWs c = false

theorem splitWords_clean_single {w : List Char} (hw : CleanWord w) :
    splitWords w = [w] := by
  obtain ⟨hne, hnws⟩ := hw
  cases w with
  | nil => exact absurd rfl hne
  | cons c w' =>
    have hc : isWs c = false := hnws c (by simp)
    rw [splitWords_cons_nws w' hc]
    have htake : w'.takeWhile (fun d => !isWs d) = w' := by
      rw [List.takeWhile_eq_self_iff]
      intro d hd
      simp [hnws d (by simp [hd])]
    have hdrop : w'.dropWhile (fun d => !isWs d) = [] := by
      rw [List.dropWhile_eq_nil_iff]
      intro d hd
      simp [hnws d (by simp [hd])]
    rw [htake, hdrop, splitWords_nil]

theorem splitWords_clean_cons {w t : List Char} (hw : CleanWord w) :
    splitWords (w ++ ' ' :: t) = w :: splitWords t := by
  obtain ⟨hne, hnws⟩ := hw
  cases w with
  | nil => exact absurd rfl hne
  | cons c w' =>
    have hc : isWs c = false := hnws c (by simp)
    rw [List.cons_append, splitWords_cons_nws _ hc]
    have hall : ∀ d ∈ w', (fun d => !isWs d) d = true := by
      intro d hd
      simp [hnws d (by simp [hd])]
    rw [takeWhile_append_all _ _ _ hall, dropWhile_append_all _ _ _ hall]
    have hsp : isWs ' ' = true := by decide
    have htake : (' ' :: t).takeWhile (fun d => !isWs d) = [] := by
      simp [List.takeWhile_cons, hsp]
    have hdrop : (' ' :: t).dropWhile (fun d => !isWs d) = ' ' :: t := by
      simp [List.dropWhile_cons, hsp]
    rw [htake, hdrop, List.append_nil, splitWords_cons_ws t hsp]

/-- Splitting is a retraction of space-joining on lists of clean words:
`" ".join(ws).split() == ws`. -/
theorem splitWords_joinSpace {ws : List (List Char)}
    (h : ∀ w ∈ ws, CleanWord w) :
    splitWords (joinSpace ws) = ws := by
  induction ws with
  | nil => simp [joinSpace, splitWords_nil]
  | cons w ws ih =>
    cases ws with
    | nil =>
      simpa [joinSpace] using splitWords_clean_single (h w (by simp))
    | cons v vs =>
      show splitWords (w ++ ' ' :: joinSpace (v :: vs)) = w :: v :: vs
      rw [splitWords_clean_cons (h w (by simp))]
      rw [ih (fun u hu => h u (by simp [List.mem_cons] at hu ⊢; tauto))]

theorem splitWords_truncate (s : List Char) (n : Nat) :
    splitWords (truncate s n) = (splitWords s).take n := by
  unfold truncate
  by_cases h : (splitWords s).length > n
  · rw [if_pos h]
    refine splitWords_joinSpace ?_
    intro w hw
    have hmem : w ∈ splitWords s := List.take_subset n _ hw
    exact ⟨splitWords_ne_nil s w hmem, splitWords_no_ws s w hmem⟩
  · rw [if_neg h, List.take_of_length_le (by omega)]

theorem truncate_length_le (s : List Char) (n : Nat) :
    (splitWords (truncate s n)).length ≤ n := by
  rw [splitWords_truncate]
  exact (List.length_take n _) ▸ Nat.min_le_left n _

theorem truncate_idem (s : List Char) (n : Nat) :
    truncate (truncate s n) n = truncate s n := by
  have h := truncate_length_le s n
  rw [truncate, if_neg (by omega)]

/-- ASCII fragment of the regex character class `[\w\-]` used by the URL
pattern in `src/web_api.py` line 37 and `src/web-summarize.py` line 56. -/
def wordDash (c : Char) : Bool :=
  c.isAlphanum || c == '_' || c == '-'

/-- `re` `.` matches every character except a newline. -/
def notNl (c : Char) : Bool :=
  !(c == '\n')

/-- Python's `$` anchor also matches just before one newline at the very
end of the string; chopping that newline reduces `$` to end-of-string. -/
def chopNl (s : List Char) : List Char :=
  if s.getLast? = some '\n' then s.dropLast else s

/-- Matcher for the scheme-free part of the URL regex,
`[\w\-]+(\.[\w\-]+)+[\/]?.*` anchored at both ends: a maximal leading
run of word characters, a dot, at least one further word character, and
a newline-free remainder (extra dot groups and the optional slash are
absorbed by `.*`). -/
def matchHostDot (t : List Char) : Bool :=
  match t.dropWhile wordDash with
  | c :: d :: rest =>
    c == '.' && !(t.takeWhile wordDash).isEmpty && wordDash d && rest.all notNl
  | _ => false

def httpScheme : List Char := ['h', 't', 't', 'p', ':', '/', '/']

def httpsScheme : List Char := ['h', 't', 't', 'p', 's', ':', '/', '/']

/-- Strip a literal leading sequence, returning the remainder. -/
def stripLead : List Char → List Char → Option (List Char)
  | [], s => some s
  | _ :: _, [] => none
  | p :: ps, c :: cs => if p = c then stripLead ps cs else none

/-- `is_valid_url` from `src/web_api.py` lines 36–38 and
`src/web-summarize.py` lines 55–57:
`re.match(r'^(https?:\/\/)?([\w\-]+(\.[\w\-]+)+[\/]?.*)$', url)`.
The optional scheme group is resolved by trying the three alternatives. -/
def is_valid_url (s : List Char) : Bool :=
  let t := chopNl s
  matchHostDot t ||
    (match stripLead httpScheme t with
     | some r => matchHostDot r
     | none => false) ||
    (match stripLead httpsScheme t with
     | some r => matchHostDot r
     | none => false)

/-- The three ways the optional scheme group can match. -/
def SchemeStrings : List (List Char) := [[], httpScheme, httpsScheme]

/-- A host with at least one dot-separated label: a nonempty word-character
label, a dot, and a nonempty word-character label. -/
def HostDotShape (h : List Char) : Prop :=
  ∃ l1 l2, l1 ≠ [] ∧ l2 ≠ [] ∧ (∀ c ∈ l1, wordDash c = true) ∧
    (∀ c ∈ l2, wordDash c = true) ∧ h = l1 ++ '.' :: l2

/-- Modelled from the spec wording of claim C3: an optional `http://` or
`https://` scheme, a host containing at least one dot-separated label,
optionally followed by a path/query of arbitrary content. -/
def SpecUrlShape (s : List Char) : Prop :=
  ∃ scheme host rest, scheme ∈ SchemeStrings ∧ HostDotShape host ∧
    s = scheme ++ host ++ rest

/-- The language the regex actually accepts: as `SpecUrlShape`, except the
path/query part may not contain a newline, with a single trailing newline
also tolerated (Python's `$`). -/
def SpecUrlShapeNlFree (s : List Char) : Prop :=
  ∃ scheme host rest nl, scheme ∈ SchemeStrings ∧ HostDotShape host ∧
    (∀ c ∈ rest, notNl c = true) ∧ (nl = [] ∨ nl = ['\n']) ∧
    s = scheme ++ host ++ rest ++ nl

theorem wordDash_not_nl {c : Char} (h : wordDash c = true) :
    notNl c = true := by
  by_cases hc : c = '\n'
  · subst hc
    exact absurd h (by decide)
  · simp [notNl, hc]

theorem matchHostDot_iff (t : List Char) :
    matchHostDot t = true ↔
      ∃ l1 d rest, l1 ≠ [] ∧ (∀ c ∈ l1, wordDash c = true) ∧
        wordDash d = true ∧ (∀ c ∈ rest, notNl c = true) ∧
        t = l1 ++ '.' :: d :: rest := by
  constructor
  · intro h
    unfold matchHostDot at h
    rcases hdw : t.dropWhile wordDash with _ | ⟨c, u⟩
    · rw [hdw] at h; simp at h
    · rcases u with _ | ⟨d, rest⟩
      · rw [hdw] at h; simp at h
      · rw [hdw] at h
        simp only [Bool.and_eq_true, Bool.not_eq_true', beq_iff_eq,
          List.isEmpty_eq_false, List.all_eq_true] at h
        obtain ⟨⟨⟨hc, hne⟩, hd⟩, hrest⟩ := h
        subst hc
        refine ⟨t.takeWhile wordDash, d, rest, hne, ?_, hd, hrest, ?_⟩
        · intro c hc; exact List.mem_takeWhile_imp hc
        · conv_lhs => rw [← List.takeWhile_append_dropWhile (p := wordDash) (l := t)]
          rw [hdw]
  · rintro ⟨l1, d, rest, hne, hl1, hd, hrest, rfl⟩
    have hdot : wordDash '.' = false := by decide
    have htake : (l1 ++ '.' :: d :: rest).takeWhile wordDash = l1 := by
      rw [takeWhile_append_all _ _ _ hl1]
      simp [List.takeWhile_cons, hdot]
    have hdrop : (l1 ++ '.' :: d :: rest).dropWhile wordDash =
        '.' :: d :: rest := by
      rw [dropWhile_append_all _ _ _ hl1]
      simp [List.dropWhile_cons, hdot]
    unfold matchHostDot
    rw [hdrop, htake]
    simp only [Bool.and_eq_true, Bool.not_eq_true', beq_iff_eq,
      List.isEmpty_eq_false, List.all_eq_true]
    exact ⟨⟨⟨trivial, hne⟩, hd⟩, hrest⟩

theorem stripLead_append (p s : List Char) : stripLead p (p ++ s) = some s := by
  induction p with
  | nil => rfl
  | cons c p ih => simp [stripLead, ih]

theorem stripLead_eq_some {p t r : List Char} (h : stripLead p t = some r) :
    t = p ++ r := by
  induction p generalizing t with
  | nil => simpa [stripLead] using h
  | cons c p ih =>
    cases t with
    | nil => simp [stripLead] at h
    | cons a t =>
      by_cases hca : c = a
      · subst hca
        simp only [stripLead, if_pos rfl] at h
        simpa using ih h
      · simp [stripLead, hca] at h

theorem chopNl_cases (s : List Char) :
    s = chopNl s ∨ s = chopNl s ++ ['\n'] := by
  unfold chopNl
  by_cases h : s.getLast? = some '\n'
  · right
    rw [if_pos h]
    have hmem : '\n' ∈ s.getLast? := by rw [h]; rfl
    exact (List.dropLast_append_getLast? _ hmem).symm
  · left
    rw [if_neg h]

theorem chopNl_concat_nl (x : List Char) : chopNl (x ++ ['\n']) = x := by
  unfold chopNl
  rw [List.getLast?_concat, if_pos rfl, List.dropLast_concat]

theorem chopNl_no_nl {s : List Char} (h : ∀ c ∈ s, notNl c = true) :
    chopNl s = s := by
  unfold chopNl
  by_cases hl : s.getLast? = some '\n'
  · exfalso
    have hmem : '\n' ∈ s.getLast? := by rw [hl]; rfl
    obtain ⟨hne, heq⟩ := List.mem_getLast?_eq_getLast hmem
    have hmem2 : '\n' ∈ s := heq ▸ List.getLast_mem hne
    have := h _ hmem2
    simp [notNl] at this
  · rw [if_neg hl]

theorem scheme_chars_not_nl {scheme : List Char} (h : scheme ∈ SchemeStrings) :
    ∀ c ∈ scheme, notNl c = true := by
  simp only [SchemeStrings, List.mem_cons, List.mem_singleton,
    List.not_mem_nil, or_false] at h
  rcases h with rfl | rfl | rfl <;> decide

/-- Exact characterization of the URL regex: it accepts precisely the
spec's shape with a newline-free path/query (one trailing newline
tolerated by `$`). -/
theorem is_valid_url_iff (s : List Char) :
    is_valid_url s = true ↔ SpecUrlShapeNlFree s := by
  constructor
  · intro h
    unfold is_valid_url at h
    have key : ∃ scheme r, scheme ∈ SchemeStrings ∧ chopNl s = scheme ++ r ∧
        matchHostDot r = true := by
      simp only [Bool.or_eq_true] at h
      rcases h with (h | h) | h
      · exact ⟨[], chopNl s, by simp [SchemeStrings], by simp, h⟩
      · rcases hsl : stripLead httpScheme (chopNl s) with _ | r
        · rw [hsl] at h; simp at h
        · rw [hsl] at h
          exact ⟨httpScheme, r, by simp [SchemeStrings],
            stripLead_eq_some hsl, h⟩
      · rcases hsl : stripLead httpsScheme (chopNl s) with _ | r
        · rw [hsl] at h; simp at h
        · rw [hsl] at h
          exact ⟨httpsScheme, r, by simp [SchemeStrings],
            stripLead_eq_some hsl, h⟩
    obtain ⟨scheme, r, hsch, hchop, hm⟩ := key
    rw [matchHostDot_iff] at hm
    obtain ⟨l1, d, rest, hne, hl1, hd, hrest, rfl⟩ := hm
    have hhost : HostDotShape (l1 ++ '.' :: [d]) := by
      refine ⟨l1, [d], hne, by simp, hl1, ?_, rfl⟩
      intro c hc
      rw [List.mem_singleton] at hc
      subst hc
      exact hd
    rcases chopNl_cases s with hs | hs
    · refine ⟨scheme, l1 ++ '.' :: [d], rest, [], hsch, hhost, hrest,
        Or.inl rfl, ?_⟩
      rw [hs, hchop]
      simp
    · refine ⟨scheme, l1 ++ '.' :: [d], rest, ['\n'], hsch, hhost, hrest,
        Or.inr rfl, ?_⟩
      rw [hs, hchop]
      simp
  · rintro ⟨scheme, host, rest, nl, hsch, ⟨l1, l2, hne1, hne2, hl1, hl2, rfl⟩,
      hrest, hnl, rfl⟩
    obtain ⟨d, l2', rfl⟩ : ∃ d l2', l2 = d :: l2' := by
      cases l2 with
      | nil => exact absurd rfl hne2
      | cons d l2' => exact ⟨d, l2', rfl⟩
    have hcore_nl :
        ∀ c ∈ scheme ++ (l1 ++ '.' :: d :: l2') ++ rest, notNl c = true := by
      intro c hc
      simp only [List.mem_append, List.mem_cons] at hc
      rcases hc with (hc | (hc | (rfl | hc))) | hc
      · exact scheme_chars_not_nl hsch c hc
      · exact wordDash_not_nl (hl1 c hc)
      · decide
      · exact wordDash_not_nl (hl2 c (by simp [hc]))
      · exact hrest c hc
    have hchop : chopNl (scheme ++ (l1 ++ '.' :: d :: l2') ++ rest ++ nl) =
        scheme ++ (l1 ++ '.' :: d :: l2') ++ rest := by
      rcases hnl with rfl | rfl
      · rw [List.append_nil]
        exact chopNl_no_nl hcore_nl
      · have hassoc : scheme ++ (l1 ++ '.' :: d :: l2') ++ rest ++ ['\n'] =
            (scheme ++ (l1 ++ '.' :: d :: l2') ++ rest) ++ ['\n'] := by
          simp
        rw [hassoc, chopNl_concat_nl]
    have hmatch : matchHostDot (l1 ++ '.' :: d :: (l2' ++ rest)) = true := by
      rw [matchHostDot_iff]
      refine ⟨l1, d, l2' ++ rest, hne1, hl1, hl2 d (by simp), ?_, rfl⟩
      intro c hc
      rw [List.mem_append] at hc
      rcases hc with hc | hc
      · exact wordDash_not_nl (hl2 c (by simp [hc]))
      · exact hrest c hc
    unfold is_valid_url
    simp only [Bool.or_eq_true]
    simp only [SchemeStrings, List.mem_cons, List.mem_singleton,
      List.not_mem_nil, or_false] at hsch
    rcases hsch with rfl | rfl | rfl
    · left; left
      rw [hchop]
      simp only [List.nil_append]
      have : (l1 ++ '.' :: d :: l2') ++ rest =
          l1 ++ '.' :: d :: (l2' ++ rest) := by simp
      rw [this]
      exact hmatch
    · left; right
      rw [hchop]
      have : httpScheme ++ (l1 ++ '.' :: d :: l2') ++ rest =
          httpScheme ++ (l1 ++ '.' :: d :: (l2' ++ rest)) := by simp
      rw [this, stripLead_append]
      exact hmatch
    · right
      rw [hchop]
      have : httpsScheme ++ (l1 ++ '.' :: d :: l2') ++ rest =
          httpsScheme ++ (l1 ++ '.' :: d :: (l2' ++ rest)) := by simp
      rw [this, stripLead_append]
      exact hmatch

theorem specUrlShapeNlFree_imp {s : List Char} (h : SpecUrlShapeNlFree s) :
    SpecUrlShape s := by
  obtain ⟨scheme, host, rest, nl, hsch, hh, _, _, rfl⟩ := h
  exact ⟨scheme, host, rest ++ nl, hsch, hh, by simp⟩

theorem specUrlShape_has_dot {s : List Char} (h : SpecUrlShape s) :
    '.' ∈ s := by
  obtain ⟨scheme, host, rest, _, ⟨l1, l2, _, _, _, _, rfl⟩, rfl⟩ := h
  simp

/-- A parsed HTML node: an element with a tag name and children, or a
text node (`NavigableString`). -/
inductive Html where
  | elem : String → List Html → Html
  | txt : List Char → Html
deriving Repr

/-- The tags removed before extraction
(`soup(["script", "style", "nav", "footer", "header"])` followed by
`decompose()`, `src/web_api.py` lines 50–51). -/
def badTags : List String := ["script", "style", "nav", "footer", "header"]

/-- The content-bearing tags collected by `soup.find_all`
(`src/web_api.py` line 53). -/
def contentTags : List String :=
  ["p", "h1", "h2", "h3", "h4", "h5", "h6", "li"]

/-- `decompose()` of every node whose tag is in `bad`: the whole subtree
is removed from the forest. -/
def stripTags (bad : List String) : List Html → List Html
  | [] => []
  | .txt s :: r => .txt s :: stripTags bad r
  | .elem t cs :: r =>
    if t ∈ bad then stripTags bad r
    else .elem t (stripTags bad cs) :: stripTags bad r

/-- `soup.find_all(tags)`: all elements whose tag is in `targets`, in
document (pre-)order, nested matches included. -/
def findAll (targets : List String) : List Html → List Html
  | [] => []
  | .txt _ :: r => findAll targets r
  | .elem t cs :: r =>
    (if t ∈ targets then [.elem t cs] else []) ++
      findAll targets cs ++ findAll targets r

/-- All text-node strings below a forest, in document order
(BeautifulSoup's `_all_strings` without stripping). -/
def allStrings : List Html → List (List Char)
  | [] => []
  | .txt s :: r => s :: allStrings r
  | .elem _ cs :: r => allStrings cs ++ allStrings r

/-- Python `str.strip()`: drop leading and trailing whitespace. -/
def pyStrip (s : List Char) : List Char :=
  ((s.dropWhile isWs).reverse.dropWhile isWs).reverse

/-- BeautifulSoup `get_text(strip=True)` on a node: each descendant text
string is stripped individually, strings that become empty are dropped,
and the remainder is concatenated with the default empty separator. -/
def get_text_strip (h : Html) : List Char :=
  (((allStrings [h]).map pyStrip).filter (fun w => w ≠ [])).flatten

/-- `re.sub(r'\s+', ' ', s)`: every maximal run of whitespace becomes one
space. -/
def collapseWs : List Char → List Char
  | [] => []
  | c :: cs =>
    if isWs c then ' ' :: collapseWs (cs.dropWhile isWs)
    else c :: collapseWs cs
termination_by s => s.length
decreasing_by
  · simp
    exact Nat.lt_succ_of_le (List.dropWhile_sublist _).length_le
  · simp

/-- The cleaned text of a fetched document (`src/web_api.py` lines
49–55): remove bad-tag subtrees, collect the content-bearing elements,
take each one's `get_text(strip=True)`, join with single spaces, collapse
whitespace runs and strip. -/
def cleanedContent (doc : List Html) : List Char :=
  pyStrip (collapseWs
    (joinSpace ((findAll contentTags (stripTags badTags doc)).map
      get_text_strip)))

/-- The tail of `extract_text_from_url` (`src/web_api.py` lines 57–61):
empty cleaned text is reported as the failure value `None`. -/
def extractFromHtml (doc : List Html) : Option (List Char) :=
  let content := cleanedContent doc
  if content = [] then none else some content

/-- Outcome of the page fetch plus parse inside the `try` of
`extract_text_from_url`: either some exception was raised before the
soup existed (non-2xx via `raise_for_status`, timeout, DNS/connection/TLS
failure, or a parser error), or a parsed document was obtained. -/
inductive FetchOutcome where
  | failure : FetchOutcome
  | fetched : List Html → FetchOutcome

/-- `extract_text_from_url` (`src/web_api.py` lines 41–64,
`src/web-summarize.py` lines 24–52): every exception inside the `try` is
caught and turned into `None`; otherwise the cleaned content is returned,
with the empty string also mapped to `None`. -/
def extract_text_from_url : FetchOutcome → Option (List Char)
  | .failure => none
  | .fetched doc => extractFromHtml doc

theorem collapseWs_nil : collapseWs [] = [] := by
  simp [collapseWs]

theorem collapseWs_cons_ws {c : Char} (cs : List Char) (h : isWs c = true) :
    collapseWs (c :: cs) = ' ' :: collapseWs (cs.dropWhile isWs) := by
  rw [collapseWs]
  simp [h]

theorem collapseWs_cons_nws {c : Char} (cs : List Char) (h : isWs c = false) :
    collapseWs (c :: cs) = c :: collapseWs cs := by
  rw [collapseWs]
  simp [h]

theorem splitWords_dropWhile_ws (s : List Char) :
    splitWords (s.dropWhile isWs) = splitWords s := by
  induction s with
  | nil => simp
  | cons c cs ih =>
    by_cases h : isWs c = true
    · rw [List.dropWhile_cons_of_pos h, ih, splitWords_cons_ws cs h]
    · rw [List.dropWhile_cons_of_neg (by simp [h])]

theorem collapseWs_append_word {w : List Char} (r : List Char)
    (h : ∀ c ∈ w, isWs c = false) :
    collapseWs (w ++ r) = w ++ collapseWs r := by
  induction w with
  | nil => simp
  | cons c w' ih =>
    rw [List.cons_append, collapseWs_cons_nws _ (h c (by simp)),
      ih (fun d hd => h d (by simp [hd])), List.cons_append]

theorem dropWhile_head_false {α : Type} {p : α → Bool} {l : List α} {a : α}
    {t : List α} (h : l.dropWhile p = a :: t) : p a = false := by
  induction l with
  | nil => simp at h
  | cons b l ih =>
    by_cases hb : p b = true
    · rw [List.dropWhile_cons_of_pos hb] at h
      exact ih h
    · rw [List.dropWhile_cons_of_neg (by simp [hb])] at h
      injection h with h1 h2
      subst h1
      simpa using hb

theorem takeWhile_append_not {α : Type} {p : α → Bool} {a : α}
    (l1 l2 : List α) (h : p a = false) :
    (l1 ++ a :: l2).takeWhile p = l1.takeWhile p := by
  induction l1 with
  | nil => simp [List.takeWhile_cons, h]
  | cons b l1 ih =>
    by_cases hb : p b = true
    · rw [List.cons_append, List.takeWhile_cons_of_pos hb,
        List.takeWhile_cons_of_pos hb, ih]
    · rw [List.cons_append, List.takeWhile_cons_of_neg (by simp [hb]),
        List.takeWhile_cons_of_neg (by simp [hb])]

theorem dropWhile_append_not {α : Type} {p : α → Bool} {a : α}
    (l1 l2 : List α) (h : p a = false) :
    (l1 ++ a :: l2).dropWhile p = l1.dropWhile p ++ a :: l2 := by
  induction l1 with
  | nil => simp [List.dropWhile_cons, h]
  | cons b l1 ih =>
    by_cases hb : p b = true
    · rw [List.cons_append, List.dropWhile_cons_of_pos hb,
        List.dropWhile_cons_of_pos hb, ih]
    · rw [List.cons_append, List.dropWhile_cons_of_neg (by simp [hb]),
        List.dropWhile_cons_of_neg (by simp [hb])]
      simp

theorem dropWhile_append_ne {α : Type} {p : α → Bool} (l1 l2 : List α)
    (h : l1.dropWhile p ≠ []) :
    (l1 ++ l2).dropWhile p = l1.dropWhile p ++ l2 := by
  induction l1 with
  | nil => simp at h
  | cons b l1 ih =>
    by_cases hb : p b = true
    · rw [List.cons_append, List.dropWhile_cons_of_pos hb,
        List.dropWhile_cons_of_pos hb]
      exact ih (by rwa [List.dropWhile_cons_of_pos hb] at h)
    · rw [List.cons_append, List.dropWhile_cons_of_neg (by simp [hb]),
        List.dropWhile_cons_of_neg (by simp [hb])]
      simp

/-- Splitting a string at an explicit space splits the word lists. -/
theorem splitWords_append_space (x t : List Char) :
    splitWords (x ++ ' ' :: t) = splitWords x ++ splitWords t := by
  induction x using splitWords.induct with
  | case1 =>
    rw [List.nil_append, splitWords_nil, List.nil_append,
      splitWords_cons_ws t (by decide)]
  | case2 c cs hws ih =>
    rw [List.cons_append, splitWords_cons_ws _ hws, splitWords_cons_ws _ hws,
      ih]
  | case3 c cs hws ih =>
    have hc : isWs c = false := by simpa using hws
    have htk : (cs ++ ' ' :: t).takeWhile (fun d => !isWs d) =
        cs.takeWhile (fun d => !isWs d) :=
      takeWhile_append_not (p := fun d => !isWs d) cs t (by decide)
    have hdp : (cs ++ ' ' :: t).dropWhile (fun d => !isWs d) =
        cs.dropWhile (fun d => !isWs d) ++ ' ' :: t :=
      dropWhile_append_not (p := fun d => !isWs d) cs t (by decide)
    rw [List.cons_append, splitWords_cons_nws _ hc, splitWords_cons_nws _ hc,
      htk, hdp, ih, List.cons_append]

/-- `" ".join` then `split` flattens per-piece word lists. -/
theorem splitWords_joinSpace_flat (xs : List (List Char)) :
    splitWords (joinSpace xs) = (xs.map splitWords).flatten := by
  induction xs with
  | nil => simp [joinSpace, splitWords_nil]
  | cons x xs ih =>
    cases xs with
    | nil => simp [joinSpace]
    | cons y ys =>
      show splitWords (x ++ ' ' :: joinSpace (y :: ys)) = _
      rw [splitWords_append_space, ih]
      simp

/-- Right-hand strip only (Python's `str.rstrip()`). -/
def rstripWs (s : List Char) : List Char :=
  (s.reverse.dropWhile isWs).reverse

theorem pyStrip_eq_rstrip_lstrip (s : List Char) :
    pyStrip s = rstripWs (s.dropWhile isWs) := rfl

theorem rstripWs_all_nonws {w : List Char} (h : ∀ c ∈ w, isWs c = false) :
    rstripWs w = w := by
  unfold rstripWs
  rcases hrev : w.reverse with _ | ⟨c, r⟩
  · simp at hrev
    simp [hrev]
  · have hc : isWs c = false := by
      have : c ∈ w := by
        rw [← List.mem_reverse, hrev]
        simp
      exact h c this
    rw [List.dropWhile_cons_of_neg (by simp [hc]), ← hrev, List.reverse_reverse]

theorem rstripWs_append_ne {B : List Char} (A : List Char)
    (h : rstripWs B ≠ []) : rstripWs (A ++ B) = A ++ rstripWs B := by
  unfold rstripWs at h ⊢
  have hne : B.reverse.dropWhile isWs ≠ [] := by
    intro e
    rw [e] at h
    simp at h
  rw [List.reverse_append, dropWhile_append_ne _ _ hne, List.reverse_append,
    List.reverse_reverse]

theorem rstripWs_concat_ws {a : Char} (w : List Char) (h : isWs a = true) :
    rstripWs (w ++ [a]) = rstripWs w := by
  unfold rstripWs
  rw [List.reverse_append]
  simp only [List.reverse_cons, List.reverse_nil, List.nil_append,
    List.singleton_append]
  rw [List.dropWhile_cons_of_pos h]

theorem pyStrip_cons_ws {c : Char} (X : List Char) (h : isWs c = true) :
    pyStrip (c :: X) = pyStrip X := by
  rw [pyStrip_eq_rstrip_lstrip, pyStrip_eq_rstrip_lstrip,
    List.dropWhile_cons_of_pos h]

theorem pyStrip_cons_nws {c : Char} (X : List Char) (h : isWs c = false) :
    pyStrip (c :: X) = rstripWs (c :: X) := by
  rw [pyStrip_eq_rstrip_lstrip, List.dropWhile_cons_of_neg (by simp [h])]

/-- Collapsing whitespace runs and stripping is the same as splitting
into words and rejoining with single spaces:
`re.sub(r'\s+', ' ', s).strip() == " ".join(s.split())`. -/
theorem pyStrip_collapseWs (s : List Char) :
    pyStrip (collapseWs s) = joinSpace (splitWords s) := by
  suffices H : ∀ n (s : List Char), s.length ≤ n →
      pyStrip (collapseWs s) = joinSpace (splitWords s) from
    H s.length s le_rfl
  intro n
  induction n with
  | zero =>
    intro s hs
    have : s = [] := by
      cases s with
      | nil => rfl
      | cons a b => simp at hs
    subst this
    rw [collapseWs_nil, splitWords_nil]
    rfl
  | succ n ih =>
    intro s hs
    cases s with
    | nil =>
      rw [collapseWs_nil, splitWords_nil]
      rfl
    | cons c cs =>
      simp only [List.length_cons] at hs
      by_cases hc : isWs c = true
      · rw [collapseWs_cons_ws cs hc, pyStrip_cons_ws _ (by decide),
          ih (cs.dropWhile isWs)
            (le_trans (List.dropWhile_sublist _).length_le (by omega)),
          splitWords_dropWhile_ws, splitWords_cons_ws cs hc]
      · have hc' : isWs c = false := by simpa using hc
        have hcs : cs = cs.takeWhile (fun d => !isWs d) ++
            cs.dropWhile (fun d => !isWs d) :=
          (List.takeWhile_append_dropWhile (p := fun d => !isWs d)
            (l := cs)).symm
        have hw_all : ∀ d ∈ c :: cs.takeWhile (fun d => !isWs d),
            isWs d = false := by
          intro d hd
          rw [List.mem_cons] at hd
          rcases hd with rfl | hd
          · exact hc'
          · simpa using List.mem_takeWhile_imp hd
        have hsplit : splitWords (c :: cs) =
            (c :: cs.takeWhile (fun d => !isWs d)) ::
              splitWords (cs.dropWhile (fun d => !isWs d)) :=
          splitWords_cons_nws cs hc'
        have hcollapse : collapseWs (c :: cs) =
            (c :: cs.takeWhile (fun d => !isWs d)) ++
              collapseWs (cs.dropWhile (fun d => !isWs d)) := by
          conv_lhs => rw [hcs]
          rw [← List.cons_append]
          exact collapseWs_append_word _ hw_all
        rw [hsplit, hcollapse]
        rcases hrest : cs.dropWhile (fun d => !isWs d) with _ | ⟨d, rest'⟩
        · rw [collapseWs_nil, List.append_nil, splitWords_nil,
            pyStrip_cons_nws _ hc', rstripWs_all_nonws hw_all]
          rfl
        · have hd_ws : isWs d = true := by
            have := dropWhile_head_false hrest
            simpa using this
          have hrest_len : rest'.length + 1 ≤ cs.length := by
            have := (List.dropWhile_sublist (fun d => !isWs d)
              (l := cs)).length_le
            rw [hrest] at this
            simpa using this
          rw [collapseWs_cons_ws rest' hd_ws]
          rcases hz : rest'.dropWhile isWs with _ | ⟨e, E⟩
          · -- nothing but whitespace remains: the trailing space is stripped
            rw [collapseWs_nil]
            have hjoin : splitWords (d :: rest') = [] := by
              rw [splitWords_cons_ws rest' hd_ws, ← splitWords_dropWhile_ws,
                hz, splitWords_nil]
            rw [hjoin, List.cons_append, pyStrip_cons_nws _ hc',
              ← List.cons_append, rstripWs_concat_ws _ (by decide),
              rstripWs_all_nonws hw_all]
            rfl
          · -- a further word follows: recurse on the remainder
            have he : isWs e = false := dropWhile_head_false hz
            have hIH := ih (d :: rest') (by simp only [List.length_cons]; omega)
            have hcoll_rest : collapseWs (d :: rest') =
                ' ' :: collapseWs (rest'.dropWhile isWs) :=
              collapseWs_cons_ws rest' hd_ws
            have hcoll_z : collapseWs (rest'.dropWhile isWs) =
                e :: collapseWs E := by
              rw [hz, collapseWs_cons_nws E he]
            have hps : pyStrip (collapseWs (d :: rest')) =
                rstripWs (collapseWs (rest'.dropWhile isWs)) := by
              rw [hcoll_rest, pyStrip_cons_ws _ (by decide), hcoll_z,
                pyStrip_cons_nws _ he, ← hcoll_z]
            have hstar : rstripWs (collapseWs (rest'.dropWhile isWs)) =
                joinSpace (splitWords (d :: rest')) := by
              rw [← hps, hIH]
            have hsw_rest : splitWords (d :: rest') =
                splitWords (e :: E) := by
              rw [splitWords_cons_ws rest' hd_ws, ← splitWords_dropWhile_ws,
                hz]
            have hjoin_ne : joinSpace (splitWords (d :: rest')) ≠ [] := by
              rw [hsw_rest, splitWords_cons_nws E he]
              cases hE : splitWords (E.dropWhile (fun d => !isWs d)) with
              | nil => simp [joinSpace]
              | cons u us => simp [joinSpace]
            have hne : rstripWs (collapseWs (rest'.dropWhile isWs)) ≠ [] := by
              rw [hstar]
              exact hjoin_ne
            rw [hcoll_z] at hne
            have hassoc2 : (c :: cs.takeWhile (fun d => !isWs d)) ++
                ' ' :: collapseWs (e :: E) =
                ((c :: cs.takeWhile (fun d => !isWs d)) ++ [' ']) ++
                  (e :: collapseWs E) := by
              rw [collapseWs_cons_nws E he]
              simp
            rw [List.cons_append, pyStrip_cons_nws _ hc', ← List.cons_append,
              hassoc2, rstripWs_append_ne _ hne, ← hcoll_z, hstar]
            rcases hsw : splitWords (d :: rest') with _ | ⟨u, us⟩
            · exact absurd (hsw ▸ hjoin_ne) (by simp [joinSpace])
            · simp [joinSpace]

theorem stripTags_append (bad : List String) (a b : List Html) :
    stripTags bad (a ++ b) = stripTags bad a ++ stripTags bad b := by
  induction a with
  | nil => simp [stripTags]
  | cons n r ih =>
    cases n with
    | txt s => simp [stripTags, ih]
    | elem t cs =>
      by_cases ht : t ∈ bad
      · simp [stripTags, ht, ih]
      · simp [stripTags, ht, ih]

theorem stripTags_bad_elem {bad : List String} {t : String} (cs r : List Html)
    (ht : t ∈ bad) :
    stripTags bad (Html.elem t cs :: r) = stripTags bad r := by
  simp [stripTags, ht]

/-- A forest consisting only of `script`/`style`/`nav` elements. -/
def OnlyBoilerplate (doc : List Html) : Prop :=
  ∀ n ∈ doc, ∃ t cs, n = Html.elem t cs ∧
    t ∈ (["script", "style", "nav"] : List String)

theorem stripTags_boilerplate {doc : List Html} (h : OnlyBoilerplate doc) :
    stripTags badTags doc = [] := by
  induction doc with
  | nil => simp [stripTags]
  | cons n r ih =>
    obtain ⟨t, cs, rfl, ht⟩ := h n (by simp)
    have hbad : t ∈ badTags := by
      simp only [List.mem_cons, List.mem_singleton, List.not_mem_nil,
        or_false] at ht
      rcases ht with rfl | rfl | rfl <;> decide
    rw [stripTags_bad_elem cs r hbad]
    exact ih (fun m hm => h m (by simp [hm]))

/-- Removing a boilerplate-tagged subtree anywhere at the top level never
changes the extracted text. -/
theorem cleanedContent_remove_bad (pre post : List Html) (t : String)
    (cs : List Html) (ht : t ∈ badTags) :
    cleanedContent (pre ++ Html.elem t cs :: post) =
      cleanedContent (pre ++ post) := by
  unfold cleanedContent
  rw [stripTags_append, stripTags_append, stripTags_bad_elem cs post ht]

/-- The extracted text is exactly the words of the collected elements'
glued texts, rejoined with single spaces. -/
theorem cleanedContent_words (doc : List Html) :
    cleanedContent doc =
      joinSpace ((((findAll contentTags (stripTags badTags doc)).map
        get_text_strip).map splitWords).flatten) := by
  unfold cleanedContent
  rw [pyStrip_collapseWs, splitWords_joinSpace_flat]

/-- Minimal JSON values for the upstream response body. -/
inductive JVal where
  | jnull
  | jbool : Bool → JVal
  | jnum : Int → JVal
  | jstr : String → JVal
  | jarr : List JVal → JVal
  | jobj : List (String × JVal) → JVal

/-- `value[key]` with a string key: succeeds only on an object containing
the key; anything else raises `TypeError`/`KeyError` in Python. -/
def jfield (k : String) : JVal → Option JVal
  | .jobj fs => (fs.find? (fun p => p.1 == k)).map (fun p => p.2)
  | _ => none

/-- `value[0]`: succeeds only on a nonempty array (otherwise
`TypeError`/`IndexError`).  Python would also index a string here, but
every continuation of the handler then raises before producing a
summary, so the handler outcome agrees. -/
def jindex (i : Nat) : JVal → Option JVal
  | .jarr xs => xs.get? i
  | _ => none

/-- `result["choices"][0]["message"]["content"]` (`src/web_api.py` line
172, `src/web-summarize.py` line 128), with any raised exception as
`none`. -/
def extractSummary (j : JVal) : Option JVal :=
  ((jfield "choices" j).bind (jindex 0)).bind
    (fun m => (jfield "message" m).bind (jfield "content"))

/-- An upstream HTTP response as the handler sees it.  `body = none`
means `response.json()` raises (unparsable body); `rawText` is
`response.text`, echoed in error details. -/
structure UpstreamResponse where
  status : Nat
  body : Option JVal
  rawText : String

/-- JSON bodies produced by the handlers: `{"error": msg}`,
`{"error": msg, "details": d, ...}`, or `{"summary": v}`. -/
inductive RespBody where
  | errMsg : String → RespBody
  | errDetails : String → String → RespBody
  | summary : JVal → RespBody

structure HttpResponse where
  status : Nat
  body : RespBody

/-- Whether a response body carries an `"error"` field. -/
def hasErrorField : RespBody → Bool
  | .errMsg _ => true
  | .errDetails _ _ => true
  | .summary _ => false

/-- Handling of the upstream response, identical in both variants
(`src/web_api.py` lines 166–177, `src/web-summarize.py` lines 118–132):
a status other than exactly 200 yields a 500 error with details; on 200
the JSON body is parsed and `choices[0].message.content` is returned as
the summary, any failure of that shape yielding a 500 error. -/
def handleUpstream (r : UpstreamResponse) : HttpResponse :=
  if r.status ≠ 200 then
    ⟨500, .errDetails "Gagal meringkas website" r.rawText⟩
  else
    match r.body with
    | none => ⟨500, .errMsg "Gagal membaca respons dari OpenRouter"⟩
    | some j =>
      match extractSummary j with
      | none => ⟨500, .errMsg "Gagal membaca respons dari OpenRouter"⟩
      | some v => ⟨200, .summary v⟩

/-- One request, then — while the policy marks the status retryable and
retry budget remains — another attempt; returns the number of requests
performed (urllib3 `Retry` raises `MaxRetryError` when the budget is
exhausted by a retryable status, after that final request). -/
def retryAttempts (eligible : Nat → Bool) (responses : Nat → Nat) :
    Nat → Nat → Nat
  | i, 0 => i + 1
  | i, b + 1 =>
    if eligible (responses i) then retryAttempts eligible responses (i + 1) b
    else i + 1

/-- Request-scoped environment of one `POST /summarize` request: the
parsed JSON body's `web_url` field (`none` when the body is falsy or the
field is absent), the page-fetch outcome, the configured API key, and
the outcome of the summarization call. -/
structure Env (A : Type) where
  webUrl : Option (List Char)
  fetch : FetchOutcome
  apiKey : Option String
  api : A

namespace web_api

/-- `status_forcelist=[429, 500, 502, 503, 504]` (`src/web_api.py`
line 139). -/
def status_forcelist : List Nat := [429, 500, 502, 503, 504]

/-- `total=3` retries (`src/web_api.py` line 139). -/
def retryTotal : Nat := 3

/-- `backoff_factor=1` (`src/web_api.py` line 139). -/
def backoff_factor : Nat := 1

/-- urllib3 `Retry.get_backoff_time` before the `k`-th consecutive
retry: zero before the first, then `backoff_factor * 2^(k-1)` capped at
the default backoff maximum of 120 seconds. -/
def get_backoff_time (k : Nat) : Nat :=
  if k ≤ 1 then 0 else min 120 (backoff_factor * 2 ^ (k - 1))

/-- Is the status in the configured forcelist? -/
def forceRetry (s : Nat) : Bool := decide (s ∈ status_forcelist)

/-- urllib3 `Retry.DEFAULT_ALLOWED_METHODS`: the methods eligible for
retry when `allowed_methods` is left at its default, as it is here.
POST is not among them. -/
def DEFAULT_ALLOWED_METHODS : List String :=
  ["HEAD", "GET", "PUT", "DELETE", "OPTIONS", "TRACE"]

/-- urllib3 `Retry._is_method_retryable` with the default
`allowed_methods`. -/
def is_method_retryable (m : String) : Bool :=
  decide (m ∈ DEFAULT_ALLOWED_METHODS)

/-- urllib3 `Retry.is_retry(method, status)`: the method allowlist is
consulted first and a non-allowlisted method is never retried, whatever
the status; only then is the status forcelist checked. -/
def is_retry (m : String) (s : Nat) : Bool :=
  is_method_retryable m && forceRetry s

/-- The request the session issues is `session.post` — method POST
(`src/web_api.py` line 145). -/
def requestMethod : String := "POST"

/-- Requests performed by the mounted retrying session for the POST to
the summarization endpoint, given the stream of upstream statuses. -/
def attemptsMade (responses : Nat → Nat) : Nat :=
  retryAttempts (is_retry requestMethod) responses 0 retryTotal

/-- Exception kinds `session.post` can raise, dispatched by the `except`
chain in `src/web_api.py` lines 153–164, or a delivered response.
`connectTimeout` is a subclass of both `Timeout` and `ConnectionError`;
`sslError` is a subclass of `ConnectionError`. -/
inductive ApiOutcome where
  | timeout
  | connectTimeout
  | connectionError
  | sslError
  | otherRequestError
  | response : UpstreamResponse → ApiOutcome

/-- `isinstance(e, requests.exceptions.Timeout)`. -/
def isTimeoutExc : ApiOutcome → Bool
  | .timeout => true
  | .connectTimeout => true
  | _ => false

/-- `isinstance(e, requests.exceptions.ConnectionError)`; `SSLError`
and `ConnectTimeout` are subclasses. -/
def isConnErrExc : ApiOutcome → Bool
  | .connectionError => true
  | .sslError => true
  | .connectTimeout => true
  | _ => false

/-- `isinstance(e, requests.exceptions.SSLError)`. -/
def isSSLErrExc : ApiOutcome → Bool
  | .sslError => true
  | _ => false

/-- The `except` chain around `session.post` (`src/web_api.py` lines
153–164): `Timeout` first, then `ConnectionError`, then `SSLError`,
then any other `RequestException`. -/
def handleApiExc (e : ApiOutcome) : HttpResponse :=
  if isTimeoutExc e then
    ⟨504, .errMsg "Permintaan ke layanan AI timeout. Coba lagi nanti."⟩
  else if isConnErrExc e then
    ⟨503, .errMsg "Gagal menghubungi layanan AI karena masalah koneksi."⟩
  else if isSSLErrExc e then
    ⟨503, .errMsg "Gagal menghubungi layanan AI karena masalah SSL."⟩
  else
    ⟨503, .errMsg "Gagal menghubungi layanan AI."⟩

/-- The `POST /summarize` handler of `src/web_api.py` (lines 86–181).
The second component is the truncated content sent to the summarization
API, `none` when the API is never called. -/
def summarize (env : Env ApiOutcome) : HttpResponse × Option (List Char) :=
  match env.webUrl with
  | none => (⟨400, .errMsg "Parameter 'web_url' diperlukan"⟩, none)
  | some url =>
    if is_valid_url url then
      match extract_text_from_url env.fetch with
      | none =>
        (⟨400,
          .errMsg "Tidak ada teks yang dapat diekstrak dari website ini"⟩,
          none)
      | some content =>
        let truncated := truncate content 300
        match env.apiKey with
        | none => (⟨500, .errMsg "API Key tidak tersedia"⟩, none)
        | some _ =>
          match env.api with
          | .response r => (handleUpstream r, some truncated)
          | e => (handleApiExc e, some truncated)
    else (⟨400, .errMsg "URL website tidak valid"⟩, none)

end web_api

namespace webSummarize

/-- `requests.post` in `src/web-summarize.py` line 115 uses the default
adapter: `max_retries` is `Retry(0, read=False)` — no status forcelist
and a zero retry budget. -/
def attemptsMade (responses : Nat → Nat) : Nat :=
  retryAttempts (fun _ => false) responses 0 0

/-- Outcome of the bare `requests.post` call in `src/web-summarize.py`
line 115: a transport-level exception (no timeout is configured, so a
`Timeout` exception cannot occur), or a delivered response. -/
inductive ApiOutcome where
  | connectionFailure
  | sslFailure
  | response : UpstreamResponse → ApiOutcome

/-- The `POST /summarize` handler of `src/web-summarize.py` (lines
63–136).  There is no `except` chain around the API call: a transport
exception propagates to the outer `except Exception` (line 134), which
returns 500. -/
def summarize (env : Env ApiOutcome) : HttpResponse × Option (List Char) :=
  match env.webUrl with
  | none => (⟨400, .errMsg "Parameter 'web_url' diperlukan"⟩, none)
  | some url =>
    if is_valid_url url then
      match extract_text_from_url env.fetch with
      | none =>
        (⟨400,
          .errMsg "Tidak ada teks yang dapat diekstrak dari website ini"⟩,
          none)
      | some content =>
        let truncated := truncate content 10000
        match env.apiKey with
        | none => (⟨500, .errMsg "API Key tidak tersedia"⟩, none)
        | some _ =>
          match env.api with
          | .response r => (handleUpstream r, some truncated)
          | _ => (⟨500, .errDetails "Terjadi error internal" ""⟩,
              some truncated)
    else (⟨400, .errMsg "URL website tidak valid"⟩, none)

end webSummarize

theorem retryAttempts_le (eligible : Nat → Bool) (responses : Nat → Nat) :
    ∀ b i, retryAttempts eligible responses i b ≤ i + b + 1 := by
  intro b
  induction b with
  | zero => intro i; simp [retryAttempts]
  | succ b ih =>
    intro i
    rw [retryAttempts]
    split
    · exact le_trans (ih (i + 1)) (by omega)
    · omega

theorem retryAttempts_first_not (eligible : Nat → Bool)
    (responses : Nat → Nat) (b i : Nat)
    (h : eligible (responses i) = false) :
    retryAttempts eligible responses i b = i + 1 := by
  cases b with
  | zero => simp [retryAttempts]
  | succ b => simp [retryAttempts, h]

theorem retryAttempts_all (eligible : Nat → Bool) (responses : Nat → Nat)
    (h : ∀ i, eligible (responses i) = true) :
    ∀ b i, retryAttempts eligible responses i b = i + b + 1 := by
  intro b
  induction b with
  | zero => intro i; simp [retryAttempts]
  | succ b ih =>
    intro i
    rw [retryAttempts, if_pos (h i), ih (i + 1)]
    omega

theorem forceRetry_iff (s : Nat) :
    web_api.forceRetry s = true ↔
      s = 429 ∨ s = 500 ∨ s = 502 ∨ s = 503 ∨ s = 504 := by
  simp [web_api.forceRetry, web_api.status_forcelist]

/-- Modelled from the spec wording of claim C7: each collected element's
whole text, trimmed of leading/trailing whitespace only at the ends
(rather than per text fragment as the library does). -/
def spec_element_text (h : Html) : List Char :=
  pyStrip (allStrings [h]).flatten

/-- Modelled from the spec wording of claim C7: the extraction pipeline
with whole-element trimming. -/
def specCleanedContent (doc : List Html) : List Char :=
  pyStrip (collapseWs (joinSpace
    ((findAll contentTags (stripTags badTags doc)).map spec_element_text)))

/-- A one-paragraph page used as a concrete test document. -/
def pageHi : List Html := [Html.elem "p" [Html.txt ['h', 'i']]]

theorem extract_pageHi :
    extract_text_from_url (.fetched pageHi) = some ['h', 'i'] := by
  simp [extract_text_from_url, extractFromHtml, cleanedContent, pageHi,
    stripTags, findAll, badTags, contentTags, get_text_strip, allStrings,
    pyStrip, collapseWs, joinSpace, isWs]

theorem web_api_summarize_called (env : Env web_api.ApiOutcome)
    (h : (web_api.summarize env).2.isSome = true) :
    ∃ url content, env.webUrl = some url ∧ is_valid_url url = true ∧
      extract_text_from_url env.fetch = some content ∧
      (web_api.summarize env).2 = some (truncate content 300) ∧
      (web_api.summarize env).1 = (match env.api with
        | .response r => handleUpstream r
        | e => web_api.handleApiExc e) := by
  rcases env with ⟨u, f, k, a⟩
  cases u with
  | none => simp [web_api.summarize] at h
  | some url =>
    by_cases hv : is_valid_url url = true
    · rcases hx : extract_text_from_url f with _ | c
      · simp [web_api.summarize, hv, hx] at h
      · cases k with
        | none => simp [web_api.summarize, hv, hx] at h
        | some key =>
          refine ⟨url, c, rfl, hv, ?_, ?_, ?_⟩
          · rfl
          · cases a <;> simp [web_api.summarize, hv, hx]
          · cases a <;> simp [web_api.summarize, hv, hx]
    · rw [Bool.not_eq_true] at hv
      simp [web_api.summarize, hv] at h

theorem webSummarize_summarize_called (env : Env webSummarize.ApiOutcome)
    (h : (webSummarize.summarize env).2.isSome = true) :
    ∃ url content, env.webUrl = some url ∧ is_valid_url url = true ∧
      extract_text_from_url env.fetch = some content ∧
      (webSummarize.summarize env).2 = some (truncate content 10000) ∧
      (webSummarize.summarize env).1 = (match env.api with
        | .response r => handleUpstream r
        | _ => ⟨500, .errDetails "Terjadi error internal" ""⟩) := by
  rcases env with ⟨u, f, k, a⟩
  cases u with
  | none => simp [webSummarize.summarize] at h
  | some url =>
    by_cases hv : is_valid_url url = true
    · rcases hx : extract_text_from_url f with _ | c
      · simp [webSummarize.summarize, hv, hx] at h
      · cases k with
        | none => simp [webSummarize.summarize, hv, hx] at h
        | some key =>
          refine ⟨url, c, rfl, hv, ?_, ?_, ?_⟩
          · rfl
          · cases a <;> simp [webSummarize.summarize, hv, hx]
          · cases a <;> simp [webSummarize.summarize, hv, hx]
    · rw [Bool.not_eq_true] at hv
      simp [webSummarize.summarize, hv] at h

/-- Claim C3, as stated, is false: a string of the spec's shape — empty
scheme, host `a.b`, path `\nc` of "arbitrary content" — is rejected by
`is_valid_url`, because the regex's `.*` cannot cross a newline. -/
theorem C3_counterexample :
    SpecUrlShape ['a', '.', 'b', '\n', 'c'] ∧
      is_valid_url ['a', '.', 'b', '\n', 'c'] = false := by
  constructor
  · refine ⟨[], ['a', '.', 'b'], ['\n', 'c'], by simp [SchemeStrings],
      ⟨['a'], ['b'], by simp, by simp, ?_, ?_, rfl⟩, rfl⟩
    · intro c hc
      rw [List.mem_singleton] at hc
      subst hc
      decide
    · intro c hc
      rw [List.mem_singleton] at hc
      subst hc
      decide
  · decide

/-- Claim C3 (amended): `is_valid_url` accepts exactly an optional
`http://`/`https://` scheme, a host with at least one dot-separated
label, and a path/query of arbitrary newline-free content (one trailing
newline is tolerated by the `$` anchor); in particular every string
without a dot-containing host shape is rejected. -/
theorem C3_theorem :
    (∀ s, is_valid_url s = true ↔ SpecUrlShapeNlFree s) ∧
      (∀ s, ¬ SpecUrlShape s → is_valid_url s = false) := by
  refine ⟨is_valid_url_iff, ?_⟩
  intro s hns
  cases hval : is_valid_url s with
  | false => rfl
  | true =>
    exact absurd (specUrlShapeNlFree_imp ((is_valid_url_iff s).mp hval)) hns

/-- Witness for C3 at concrete inputs. -/
theorem C3_witness : is_valid_url ['x'] = false :=
  C3_theorem.2 ['x'] (fun h => by
    have := specUrlShape_has_dot h
    simp at this)

/-- Claim C4: `truncate` splits on whitespace; above the cap it keeps
the first `n` words rejoined with single spaces, otherwise it returns
the input unchanged, and the result always has at most `n` words. -/
theorem C4_theorem :
    (∀ (s : List Char) (n : Nat), (splitWords s).length > n →
      truncate s n = joinSpace ((splitWords s).take n)) ∧
    (∀ (s : List Char) (n : Nat), (splitWords s).length ≤ n →
      truncate s n = s) ∧
    (∀ (s : List Char) (n : Nat), (splitWords (truncate s n)).length ≤ n) := by
  refine ⟨?_, ?_, ?_⟩
  · intro s n h
    rw [truncate, if_pos h]
  · intro s n h
    rw [truncate, if_neg (by omega)]
  · intro s n
    exact truncate_length_le s n

/-- Witness for C4 at concrete inputs. -/
theorem C4_witness :
    truncate ['a', ' ', 'b', ' ', 'c'] 2 =
      joinSpace ((splitWords ['a', ' ', 'b', ' ', 'c']).take 2) ∧
    truncate ['a', ' ', 'b'] 5 = ['a', ' ', 'b'] ∧
    (splitWords (truncate ['a', ' ', 'b', ' ', 'c'] 2)).length ≤ 2 :=
  ⟨C4_theorem.1 ['a', ' ', 'b', ' ', 'c'] 2 (by simp [splitWords, isWs]),
   C4_theorem.2.1 ['a', ' ', 'b'] 5 (by simp [splitWords, isWs]),
   C4_theorem.2.2 ['a', ' ', 'b', ' ', 'c'] 2⟩

/-- Claim C5: truncation is idempotent. -/
theorem C5_theorem :
    ∀ (t : List Char) (n : Nat), truncate (truncate t n) n = truncate t n :=
  fun t n => truncate_idem t n

/-- The summarization POST is never retried on status: urllib3's
`Retry.is_retry` rejects any method outside the default allowlist
before it ever consults the status forcelist, and POST is outside it,
so every status stream gets exactly one request. -/
theorem web_api_attempts_one (r : Nat → Nat) : web_api.attemptsMade r = 1 := by
  have hm : web_api.is_method_retryable web_api.requestMethod = false := by
    decide
  rw [web_api.attemptsMade]
  refine retryAttempts_first_not _ _ _ _ ?_
  simp [web_api.is_retry, hm]

/-- Claim C1, as stated, is false: the summarization call is a POST,
and urllib3's `Retry.is_retry` consults the method allowlist — whose
default excludes POST — before the status forcelist, so in
`src/web_api.py` an upstream that always answers 429 gets exactly one
request and no retry despite 429 being in the forcelist; the bare
`requests.post` of `src/web-summarize.py` performs no retries either. -/
theorem C1_counterexample :
    web_api.forceRetry 429 = true ∧
      web_api.is_retry web_api.requestMethod 429 = false ∧
      web_api.attemptsMade (fun _ => 429) = 1 ∧
      webSummarize.attemptsMade (fun _ => 429) = 1 :=
  ⟨by decide, by decide, web_api_attempts_one (fun _ => 429), rfl⟩

/-- Claim C1 (amended): `src/web_api.py` configures a retry policy with
status forcelist exactly 429/500/502/503/504, 3 total retries and
exponential backoff of base factor 1 (sleeps 0, 2, 4), but urllib3
checks the method allowlist — `HEAD, GET, PUT, DELETE, OPTIONS, TRACE`
by default, which excludes POST — before the status forcelist, so the
summarization POST is issued exactly once and never retried on any
status, the forcelisted ones included; a fortiori there is no retry on
a 2xx success or on a 4xx other than 429.  The `src/web-summarize.py`
variant performs no retries either. -/
theorem C1_theorem :
    (∀ s, web_api.forceRetry s = true ↔ s ∈ web_api.status_forcelist) ∧
    (web_api.retryTotal = 3 ∧ web_api.backoff_factor = 1 ∧
      web_api.get_backoff_time 1 = 0 ∧ web_api.get_backoff_time 2 = 2 ∧
      web_api.get_backoff_time 3 = 4) ∧
    web_api.is_method_retryable web_api.requestMethod = false ∧
    (∀ m s, web_api.is_retry m s = true →
      web_api.is_method_retryable m = true ∧ web_api.forceRetry s = true) ∧
    (∀ r : Nat → Nat, web_api.attemptsMade r = 1) ∧
    (∀ r : Nat → Nat, webSummarize.attemptsMade r = 1) := by
  refine ⟨?_, ⟨rfl, rfl, by decide, by decide, by decide⟩, by decide, ?_,
    web_api_attempts_one, fun r => rfl⟩
  · intro s
    simp [web_api.forceRetry]
  · intro m s h
    simp only [web_api.is_retry, Bool.and_eq_true] at h
    exact h

/-- Witness for C1 at concrete inputs. -/
theorem C1_witness :
    (web_api.is_method_retryable "GET" = true ∧
      web_api.forceRetry 503 = true) ∧
      web_api.attemptsMade (fun _ => 503) = 1 :=
  ⟨C1_theorem.2.2.2.1 "GET" 503 (by decide),
   C1_theorem.2.2.2.2.1 (fun _ => 503)⟩

/-- Claim C6: extraction fails (returns the failure value `None`)
exactly when the cleaned text is empty; in particular a document
consisting only of script/style/nav elements fails, and a successful
extraction always returns the nonempty cleaned text, never a partial
result. -/
theorem C6_theorem :
    (∀ doc : List Html,
      extract_text_from_url (.fetched doc) = none ↔
        cleanedContent doc = []) ∧
    (∀ doc : List Html, OnlyBoilerplate doc →
      extract_text_from_url (.fetched doc) = none) ∧
    (∀ (doc : List Html) (c : List Char),
      extract_text_from_url (.fetched doc) = some c →
      c ≠ [] ∧ c = cleanedContent doc) := by
  have hiff : ∀ doc : List Html,
      extract_text_from_url (.fetched doc) = none ↔
        cleanedContent doc = [] := by
    intro doc
    by_cases h : cleanedContent doc = [] <;>
      simp [extract_text_from_url, extractFromHtml, h]
  refine ⟨hiff, ?_, ?_⟩
  · intro doc h
    rw [hiff]
    simp [cleanedContent, stripTags_boilerplate h, findAll, joinSpace,
      collapseWs_nil, pyStrip]
  · intro doc c h
    by_cases he : cleanedContent doc = []
    · rw [← hiff doc] at he
      rw [he] at h
      exact absurd h (by simp)
    · simp only [extract_text_from_url, extractFromHtml, if_neg he] at h
      injection h with h
      exact ⟨h ▸ he, h.symm⟩

/-- Witness for C6 at concrete documents. -/
theorem C6_witness :
    extract_text_from_url (.fetched [Html.elem "script" []]) = none ∧
      (['h', 'i'] ≠ [] ∧ ['h', 'i'] = cleanedContent pageHi) := by
  constructor
  · refine C6_theorem.2.1 _ ?_
    intro n hn
    rw [List.mem_singleton] at hn
    subst hn
    exact ⟨"script", [], rfl, by simp⟩
  · exact C6_theorem.2.2 pageHi ['h', 'i'] extract_pageHi

/-- A paragraph whose text is split across an inline child element:
`<p>a <b>b</b></p>`. -/
def docGlue : List Html :=
  [Html.elem "p" [Html.txt ['a', ' '], Html.elem "b" [Html.txt ['b']]]]

/-- Claim C7, as stated, is false: `get_text(strip=True)` strips each
text fragment individually and glues the remains with no separator, so
`<p>a <b>b</b></p>` extracts to `"ab"`, while trimming the element's
whole text — the spec's description — would give `"a b"`. -/
theorem C7_counterexample :
    cleanedContent docGlue = ['a', 'b'] ∧
      specCleanedContent docGlue = ['a', ' ', 'b'] ∧
      cleanedContent docGlue ≠ specCleanedContent docGlue := by
  have h1 : cleanedContent docGlue = ['a', 'b'] := by
    simp [cleanedContent, docGlue, stripTags, findAll, badTags, contentTags,
      get_text_strip, allStrings, pyStrip, collapseWs, joinSpace, isWs]
  have h2 : specCleanedContent docGlue = ['a', ' ', 'b'] := by
    simp [specCleanedContent, docGlue, stripTags, findAll, badTags,
      contentTags, spec_element_text, allStrings, pyStrip, collapseWs,
      joinSpace, isWs]
  refine ⟨h1, h2, ?_⟩
  rw [h1, h2]
  simp

/-- Claim C7 (amended): subtrees rooted at the removed tags never
contribute to the output, and the extracted text consists exactly of
the words of each collected element's glued text — each text fragment
stripped individually, empty fragments dropped, the rest concatenated
without separators — in document order, rejoined with single spaces. -/
theorem C7_theorem :
    (∀ (pre post : List Html) (t : String) (cs : List Html), t ∈ badTags →
      cleanedContent (pre ++ Html.elem t cs :: post) =
        cleanedContent (pre ++ post)) ∧
    (∀ doc : List Html, cleanedContent doc =
      joinSpace ((((findAll contentTags (stripTags badTags doc)).map
        get_text_strip).map splitWords).flatten)) :=
  ⟨cleanedContent_remove_bad, cleanedContent_words⟩

/-- Witness for C7 at a concrete document. -/
theorem C7_witness :
    cleanedContent
        ([Html.txt ['x']] ++ Html.elem "nav" [Html.txt ['z']] :: pageHi) =
      cleanedContent ([Html.txt ['x']] ++ pageHi) :=
  C7_theorem.1 [Html.txt ['x']] pageHi "nav" [Html.txt ['z']]
    (by simp [badTags])

/-- A request of the `web-summarize.py` variant that reaches the API
call and hits a connection failure. -/
def envWsConn : Env webSummarize.ApiOutcome :=
  ⟨some ['a', '.', 'b'], .fetched pageHi, some "k", .connectionFailure⟩

/-- Claim C2, as stated, is false for the repository as a whole: in the
`src/web-summarize.py` variant a connection failure reaching the
summarization API is caught by the generic `except Exception` and
answered with 500, not 503. -/
theorem C2_counterexample :
    (webSummarize.summarize envWsConn).2.isSome = true ∧
      (webSummarize.summarize envWsConn).1.status = 500 ∧
      (500 : Nat) ≠ 503 := by
  have hv : is_valid_url ['a', '.', 'b'] = true := by decide
  refine ⟨?_, ?_, by decide⟩ <;>
    simp [webSummarize.summarize, envWsConn, hv, extract_pageHi]

/-- Claim C2 (amended): in the `src/web_api.py` variant every request
that reaches the summarization call maps a timeout to 504 and a
connection or SSL failure that is not itself a timeout (requests'
`ConnectTimeout` is both, and the `except Timeout` clause comes first)
to 503, each with a JSON error body and never another status; in the `src/web-summarize.py` variant these transport
failures are answered with 500 by the generic exception handler. -/
theorem C2_theorem :
    (∀ env : Env web_api.ApiOutcome,
      (web_api.summarize env).2.isSome = true →
      ((web_api.isTimeoutExc env.api = true →
        (web_api.summarize env).1.status = 504 ∧
          hasErrorField (web_api.summarize env).1.body = true) ∧
       ((web_api.isConnErrExc env.api = true ∨
           web_api.isSSLErrExc env.api = true) →
        web_api.isTimeoutExc env.api = false →
        (web_api.summarize env).1.status = 503 ∧
          hasErrorField (web_api.summarize env).1.body = true))) ∧
    (∀ env : Env webSummarize.ApiOutcome,
      (webSummarize.summarize env).2.isSome = true →
      (env.api = .connectionFailure ∨ env.api = .sslFailure) →
      (webSummarize.summarize env).1.status = 500 ∧
        hasErrorField (webSummarize.summarize env).1.body = true) := by
  constructor
  · intro env h
    obtain ⟨url, content, hu, hv, hx, h2, h1⟩ := web_api_summarize_called env h
    rw [h1]
    constructor
    · intro ht
      cases ha : env.api <;> rw [ha] at ht <;>
        simp_all [web_api.isTimeoutExc, web_api.handleApiExc,
          web_api.isConnErrExc, web_api.isSSLErrExc, hasErrorField]
    · intro hcs hnt
      cases ha : env.api <;> rw [ha] at hcs hnt <;>
        simp_all [web_api.isTimeoutExc, web_api.handleApiExc,
          web_api.isConnErrExc, web_api.isSSLErrExc, hasErrorField]
  · intro env h hex
    obtain ⟨url, content, hu, hv, hx, h2, h1⟩ :=
      webSummarize_summarize_called env h
    rw [h1]
    rcases hex with hex | hex <;> rw [hex] <;>
      simp [hasErrorField]

/-- Witness for C2 at a concrete request. -/
theorem C2_witness :
    (web_api.summarize
        ⟨some ['a', '.', 'b'], .fetched pageHi, some "k",
          web_api.ApiOutcome.timeout⟩).1.status = 504 := by
  have hv : is_valid_url ['a', '.', 'b'] = true := by decide
  have hcall : (web_api.summarize
      ⟨some ['a', '.', 'b'], .fetched pageHi, some "k",
        web_api.ApiOutcome.timeout⟩).2.isSome = true := by
    simp [web_api.summarize, hv, extract_pageHi]
  exact ((C2_theorem.1 _ hcall).1 (by decide)).1

/-- Claim C8: a missing `web_url` field, a failing validation, or an
extraction with no content each produce a 400 response with an error
field, and the summarization API is never called. -/
theorem C8_theorem :
    (∀ env : Env web_api.ApiOutcome,
      (env.webUrl = none ∨
        (∃ u, env.webUrl = some u ∧ is_valid_url u = false) ∨
        extract_text_from_url env.fetch = none) →
      (web_api.summarize env).1.status = 400 ∧
        hasErrorField (web_api.summarize env).1.body = true ∧
        (web_api.summarize env).2 = none) ∧
    (∀ env : Env webSummarize.ApiOutcome,
      (env.webUrl = none ∨
        (∃ u, env.webUrl = some u ∧ is_valid_url u = false) ∨
        extract_text_from_url env.fetch = none) →
      (webSummarize.summarize env).1.status = 400 ∧
        hasErrorField (webSummarize.summarize env).1.body = true ∧
        (webSummarize.summarize env).2 = none) := by
  constructor
  · rintro ⟨u, f, k, a⟩ (h | ⟨u', hu, hvf⟩ | hx)
    · subst h
      simp [web_api.summarize, hasErrorField]
    · subst hu
      simp [web_api.summarize, hvf, hasErrorField]
    · cases u with
      | none => simp [web_api.summarize, hasErrorField]
      | some u' =>
        by_cases hv : is_valid_url u' = true
        · simp [web_api.summarize, hv, hx, hasErrorField]
        · rw [Bool.not_eq_true] at hv
          simp [web_api.summarize, hv, hasErrorField]
  · rintro ⟨u, f, k, a⟩ (h | ⟨u', hu, hvf⟩ | hx)
    · subst h
      simp [webSummarize.summarize, hasErrorField]
    · subst hu
      simp [webSummarize.summarize, hvf, hasErrorField]
    · cases u with
      | none => simp [webSummarize.summarize, hasErrorField]
      | some u' =>
        by_cases hv : is_valid_url u' = true
        · simp [webSummarize.summarize, hv, hx, hasErrorField]
        · rw [Bool.not_eq_true] at hv
          simp [webSummarize.summarize, hv, hasErrorField]

/-- Witness for C8 at concrete requests. -/
theorem C8_witness :
    ((web_api.summarize
        ⟨none, .failure, none, web_api.ApiOutcome.timeout⟩).1.status = 400 ∧
      hasErrorField (web_api.summarize
        ⟨none, .failure, none, web_api.ApiOutcome.timeout⟩).1.body = true ∧
      (web_api.summarize
        ⟨none, .failure, none, web_api.ApiOutcome.timeout⟩).2 = none) ∧
    ((webSummarize.summarize
        ⟨some ['n', 'o'], .failure, none,
          webSummarize.ApiOutcome.connectionFailure⟩).1.status = 400 ∧
      hasErrorField (webSummarize.summarize
        ⟨some ['n', 'o'], .failure, none,
          webSummarize.ApiOutcome.connectionFailure⟩).1.body = true ∧
      (webSummarize.summarize
        ⟨some ['n', 'o'], .failure, none,
          webSummarize.ApiOutcome.connectionFailure⟩).2 = none) :=
  ⟨C8_theorem.1 _ (Or.inl rfl),
   C8_theorem.2 _ (Or.inr (Or.inl ⟨['n', 'o'], rfl, by decide⟩))⟩

/-- The upstream body shape the client expects:
`{"choices": [{"message": {"content": "X"}}]}`. -/
def goodBody : JVal :=
  .jobj [("choices", .jarr [.jobj [("message",
    .jobj [("content", .jstr "X")])]])]

theorem extractSummary_goodBody :
    extractSummary goodBody = some (.jstr "X") := by
  simp [extractSummary, goodBody, jfield, jindex]

/-- A request of the `web_api.py` variant whose upstream answers 201
with a perfectly shaped body. -/
def env201 : Env web_api.ApiOutcome :=
  ⟨some ['a', '.', 'b'], .fetched pageHi, some "k",
    .response ⟨201, some goodBody, "w"⟩⟩

/-- Claim C9, as stated, is false: the handler tests
`status_code != 200`, not "2xx", so a 201 upstream response with the
expected body shape is answered with a 500 error instead of the
summary. -/
theorem C9_counterexample :
    200 ≤ 201 ∧ 201 < 300 ∧ extractSummary goodBody = some (.jstr "X") ∧
      (web_api.summarize env201).2.isSome = true ∧
      (web_api.summarize env201).1 =
        ⟨500, .errDetails "Gagal meringkas website" "w"⟩ := by
  have hv : is_valid_url ['a', '.', 'b'] = true := by decide
  refine ⟨by decide, by decide, extractSummary_goodBody, ?_, ?_⟩ <;>
    simp [web_api.summarize, env201, hv, extract_pageHi, handleUpstream]

/-- Claim C9 (amended): for an upstream response with status exactly
200 the JSON body's `choices[0].message.content` is returned as the
summary, a missing shape yielding a 500 error; any other status — 2xx
or not — yields a 500 error; and both handlers delegate every delivered
upstream response to this logic. -/
theorem C9_theorem :
    (∀ r : UpstreamResponse, r.status = 200 → ∀ j v, r.body = some j →
      extractSummary j = some v →
      handleUpstream r = ⟨200, .summary v⟩) ∧
    (∀ r : UpstreamResponse, r.status = 200 →
      (r.body = none ∨ ∃ j, r.body = some j ∧ extractSummary j = none) →
      handleUpstream r =
        ⟨500, .errMsg "Gagal membaca respons dari OpenRouter"⟩) ∧
    (∀ r : UpstreamResponse, r.status ≠ 200 →
      (handleUpstream r).status = 500 ∧
        hasErrorField (handleUpstream r).body = true) ∧
    (∀ (env : Env web_api.ApiOutcome) (r : UpstreamResponse),
      env.api = .response r → (web_api.summarize env).2.isSome = true →
      (web_api.summarize env).1 = handleUpstream r) ∧
    (∀ (env : Env webSummarize.ApiOutcome) (r : UpstreamResponse),
      env.api = .response r → (webSummarize.summarize env).2.isSome = true →
      (webSummarize.summarize env).1 = handleUpstream r) := by
  refine ⟨?_, ?_, ?_, ?_, ?_⟩
  · intro r h200 j v hb hs
    simp [handleUpstream, h200, hb, hs]
  · intro r h200 hb
    rcases hb with hb | ⟨j, hb, hs⟩ <;>
      simp [handleUpstream, h200, hb]
    simp [hs]
  · intro r hne
    simp [handleUpstream, hne, hasErrorField]
  · intro env r ha h
    obtain ⟨url, content, hu, hv, hx, h2, h1⟩ := web_api_summarize_called env h
    rw [ha] at h1
    exact h1
  · intro env r ha h
    obtain ⟨url, content, hu, hv, hx, h2, h1⟩ :=
      webSummarize_summarize_called env h
    rw [ha] at h1
    exact h1

/-- A request of the `web_api.py` variant with a healthy upstream. -/
def env200 : Env web_api.ApiOutcome :=
  ⟨some ['a', '.', 'b'], .fetched pageHi, some "k",
    .response ⟨200, some goodBody, "ok"⟩⟩

/-- Witness for C9 at a concrete request. -/
theorem C9_witness :
    handleUpstream ⟨200, some goodBody, "ok"⟩ =
        ⟨200, .summary (.jstr "X")⟩ ∧
      (web_api.summarize env200).1 = handleUpstream ⟨200, some goodBody, "ok"⟩ := by
  have hv : is_valid_url ['a', '.', 'b'] = true := by decide
  have hcall : (web_api.summarize env200).2.isSome = true := by
    simp [web_api.summarize, env200, hv, extract_pageHi]
  exact ⟨C9_theorem.1 _ rfl goodBody _ rfl extractSummary_goodBody,
    C9_theorem.2.2.2.1 env200 _ rfl hcall⟩

theorem extractFromHtml_some {doc : List Html} {c : List Char}
    (h : extractFromHtml doc = some c) : c ≠ [] ∧ c = cleanedContent doc := by
  by_cases he : cleanedContent doc = []
  · simp [extractFromHtml, he] at h
  · simp only [extractFromHtml, if_neg he] at h
    injection h with h
    exact ⟨h ▸ he, h.symm⟩

theorem cleanedContent_nil : cleanedContent [] = [] := by
  simp [cleanedContent, stripTags, findAll, joinSpace, collapseWs_nil,
    pyStrip]

/-- Claim C10: `extract_text_from_url` surfaces every fetch or parse
failure as the value `None` rather than an exception; a successful
extraction is never empty; and a request whose fetch failed in
transport is answered exactly like a request for an empty page — 400
with the "no extractable text" error, the API never called, never a
5xx. -/
theorem C10_theorem :
    (∀ (f : FetchOutcome) (c : List Char),
      extract_text_from_url f = some c → c ≠ []) ∧
    extract_text_from_url .failure = none ∧
    (∀ env : Env web_api.ApiOutcome, env.fetch = .failure →
      ∀ u, env.webUrl = some u → is_valid_url u = true →
      (web_api.summarize env).1 =
        ⟨400, .errMsg "Tidak ada teks yang dapat diekstrak dari website ini"⟩ ∧
      (web_api.summarize env).2 = none ∧
      web_api.summarize env =
        web_api.summarize { env with fetch := .fetched [] }) ∧
    (∀ env : Env webSummarize.ApiOutcome, env.fetch = .failure →
      ∀ u, env.webUrl = some u → is_valid_url u = true →
      (webSummarize.summarize env).1 =
        ⟨400, .errMsg "Tidak ada teks yang dapat diekstrak dari website ini"⟩ ∧
      (webSummarize.summarize env).2 = none ∧
      webSummarize.summarize env =
        webSummarize.summarize { env with fetch := .fetched [] }) := by
  have hempty : extractFromHtml [] = none := by
    simp [extractFromHtml, cleanedContent_nil]
  refine ⟨?_, rfl, ?_, ?_⟩
  · intro f c h
    cases f with
    | failure => simp [extract_text_from_url] at h
    | fetched doc => exact (extractFromHtml_some h).1
  · rintro ⟨uf, f, k, a⟩ hf u hu hv
    simp only at hf hu
    subst hf
    subst hu
    refine ⟨?_, ?_, ?_⟩ <;>
      simp [web_api.summarize, hv, extract_text_from_url, hempty]
  · rintro ⟨uf, f, k, a⟩ hf u hu hv
    simp only at hf hu
    subst hf
    subst hu
    refine ⟨?_, ?_, ?_⟩ <;>
      simp [webSummarize.summarize, hv, extract_text_from_url, hempty]

/-- Witness for C10 at concrete inputs. -/
theorem C10_witness :
    ['h', 'i'] ≠ [] ∧
      (web_api.summarize
        ⟨some ['a', '.', 'b'], .failure, some "k",
          web_api.ApiOutcome.timeout⟩).1 =
        ⟨400,
          .errMsg "Tidak ada teks yang dapat diekstrak dari website ini"⟩ :=
  ⟨C10_theorem.1 (.fetched pageHi) ['h', 'i'] extract_pageHi,
   (C10_theorem.2.2.1 _ rfl ['a', '.', 'b'] rfl (by decide)).1⟩
